import Mathlib

/-!
Verification of the rad-claude skill-matching core.

This file gives a shallow embedding of the two TypeScript modules with
algorithmic content, `src/services/confidence-scorer.ts` and
`src/services/security.ts`, and proves the frozen specification claims
about them.

Modelling decisions:
* JavaScript strings are Lean `String`s; JS `includes` / `startsWith` /
  `endsWith` / `toLowerCase` are modelled on the underlying character
  lists (`jsIncludes`, `jsStartsWith`, `jsEndsWith`, `jsToLower`).
* JS numbers in the scorer are exact: the sub-scores are natural numbers
  and the weighted combination is carried out in `ℚ`, with `Math.round`
  modelled as `jsRound x = ⌊x + 1/2⌋` (round half towards positive
  infinity, as `Math.round` does).
* The external `minimatch` glob library and the regular-expression
  engine are not part of this repository; they enter the embedding as
  boolean oracles (`mm`, `rx`) that the theorems quantify over.
* The Node filesystem (`realpathSync`, `existsSync`) and the
  `node:path` functions (`normalize`, `resolve`) are external to the
  repository as well and are modelled as an abstract `NodeFs` record;
  `realpathSync` throwing is modelled as returning `none`.
-/

namespace RadClaude

/-- JS `String.prototype.toLowerCase`, modelled character-wise
(ASCII case mapping). -/
def jsToLower (s : String) : String := ⟨s.data.map Char.toLower⟩

/-- Helper for `jsIncludes`: does `pat` occur as a contiguous block of
`l` starting at some position? -/
def hasInfixFrom (pat : List Char) : List Char → Bool
  | [] => pat.isEmpty
  | c :: rest => pat.isPrefixOf (c :: rest) || hasInfixFrom pat rest

/-- JS `String.prototype.includes`: substring test. -/
def jsIncludes (s pat : String) : Bool := hasInfixFrom pat.data s.data

/-- JS `String.prototype.startsWith`. -/
def jsStartsWith (s pat : String) : Bool := pat.data.isPrefixOf s.data

/-- JS `String.prototype.endsWith`. -/
def jsEndsWith (s pat : String) : Bool := pat.data.isSuffixOf s.data

/-- JS `array.push` loop over `xs` guarded by `p`: the common shape
`for (x of xs) { if (p x) out.push(x) }` of the scorer's match loops. -/
def pushLoop (p : α → Bool) (xs : List α) : List α :=
  xs.foldl (fun acc x => if p x then acc ++ [x] else acc) []

theorem pushLoop_go (p : α → Bool) (xs : List α) :
    ∀ acc : List α,
      xs.foldl (fun acc x => if p x then acc ++ [x] else acc) acc
        = acc ++ xs.filter p := by
  induction xs with
  | nil => intro acc; simp [List.foldl]
  | cons x xs ih =>
    intro acc
    by_cases h : p x <;> simp [List.foldl, h, ih, List.filter_cons]

/-- The push loop collects exactly the elements satisfying the guard,
in input order. -/
theorem pushLoop_eq_filter (p : α → Bool) (xs : List α) :
    pushLoop p xs = xs.filter p := by
  simpa using pushLoop_go p xs []

/-! ## Data model (`src/types/schemas.ts`) -/

/-- `DiscoveredSkill` from `src/types/schemas.ts`. -/
structure DiscoveredSkill where
  name : String
  description : String
  keywords : List String
  filePatterns : List String
  skillPath : String
  skillMdPath : String
  deriving DecidableEq

/-- The optional `context` argument of `calculateConfidence`. -/
structure MatchContext where
  openFiles : Option (List String)
  fileContents : Option (List String)
  deriving DecidableEq

/-- `MatchDetails` from `src/types/schemas.ts`. -/
structure MatchDetails where
  keywordMatches : List String
  fileMatches : List String
  contentMatches : List String
  keywordScore : ℕ
  fileScore : ℕ
  contentScore : ℕ
  deriving DecidableEq

/-- Return type of the three sub-score functions:
`{ score, matches }`. -/
structure ScoreResult where
  score : ℕ
  «matches» : List String
  deriving DecidableEq

/-- Return type of `calculateConfidence`:
`{ confidence, details }`. -/
structure ConfidenceResult where
  confidence : ℤ
  details : MatchDetails
  deriving DecidableEq

/-! ## Confidence scorer (`src/services/confidence-scorer.ts`) -/

/-- The `WEIGHTS` constant: keywords 0.4, files 0.3, content 0.3. -/
structure Weights where
  keywords : ℚ
  files : ℚ
  content : ℚ

/-- `WEIGHTS` from `confidence-scorer.ts`. -/
def WEIGHTS : Weights := ⟨4/10, 3/10, 3/10⟩

/-- `calculateKeywordScore`: lowercase the prompt, collect the keywords
occurring as substrings (catalog order), score `0` on no match and
`min 100 (70 + 5·(matches-1))` otherwise. -/
def calculateKeywordScore (prompt : String) (keywords : List String) :
    ScoreResult :=
  let normalizedPrompt := jsToLower prompt
  let «matches» := pushLoop (fun keyword => jsIncludes normalizedPrompt keyword) keywords
  if «matches».isEmpty then ⟨0, []⟩
  else ⟨min 100 (70 + («matches».length - 1) * 5), «matches»⟩

/-- `calculateFileScore`, with the `minimatch(file, pattern, {dot:true})`
call abstracted into the oracle `mm`.  The inner `for` loop over
patterns `break`s on the first pattern matching `file`, so a file is
recorded once iff some pattern matches it. -/
def calculateFileScore (mm : String → String → Bool)
    (openFiles filePatterns : List String) : ScoreResult :=
  if filePatterns.isEmpty || openFiles.isEmpty then ⟨0, []⟩
  else
    let «matches» := pushLoop (fun file => filePatterns.any (fun pattern => mm file pattern)) openFiles
    if «matches».isEmpty then ⟨0, []⟩
    else ⟨min 100 (80 + («matches».length - 1) * 10), «matches»⟩

/-- The keys of the `SEMANTIC_PATTERNS` table (the regex bodies live in
the `rx` oracle). -/
def semanticPatternKeys : List String :=
  ["webhook/callback", "payment/stripe", "auth/session", "database/schema",
   "validation/security", "realtime/convex", "forms/input", "api/http"]

/-- The `skillPatterns` table inside `calculateContentScore`: the fixed
map from skill name to relevant semantic categories; names outside the
table get `[]` (the `?? []` fallback). -/
def skillPatternsTable (skillName : String) : List String :=
  if skillName = "convex-patterns" then
    ["webhook/callback", "database/schema", "realtime/convex", "api/http"]
  else if skillName = "security-patterns" then
    ["validation/security", "auth/session", "payment/stripe"]
  else if skillName = "react-patterns" then
    ["forms/input", "realtime/convex"]
  else if skillName = "typescript-patterns" then
    ["database/schema", "validation/security"]
  else []

/-- `calculateContentScore`, with the regex test
`SEMANTIC_PATTERNS[patternName].test(normalizedPrompt)` abstracted into
the oracle `rx patternName normalizedPrompt`; the `pattern?.test`
optional-chain is the `semanticPatternKeys.contains` guard. -/
def calculateContentScore (rx : String → String → Bool)
    (prompt skillName : String) : ScoreResult :=
  let normalizedPrompt := jsToLower prompt
  let relevantPatterns := skillPatternsTable skillName
  let «matches» := pushLoop
    (fun patternName => semanticPatternKeys.contains patternName
      && rx patternName normalizedPrompt) relevantPatterns
  if «matches».isEmpty then ⟨0, []⟩
  else ⟨min 100 (70 + («matches».length - 1) * 10), «matches»⟩

/-- JS `Math.round`: round half towards positive infinity. -/
def jsRound (x : ℚ) : ℤ := (x + 1/2).floor

theorem jsRound_eq_floor (x : ℚ) : jsRound x = ⌊x + 1/2⌋ := by
  rw [jsRound, Int.floor]
  rfl

/-- `calculateConfidence`: compute the three sub-scores, collect the
(weight, score) pairs of the strictly positive signals, return `0` with
empty details when none is active, and otherwise the weighted sum using
weights renormalized by their total, rounded with `Math.round`. -/
def calculateConfidence (mm rx : String → String → Bool) (prompt : String)
    (skill : DiscoveredSkill) (context : Option MatchContext) :
    ConfidenceResult :=
  let keywordResult := calculateKeywordScore prompt skill.keywords
  let fileResult := calculateFileScore mm
    ((context.bind (fun c => c.openFiles)).getD []) skill.filePatterns
  let contentResult := calculateContentScore rx prompt skill.name
  let active : List (ℚ × ℚ) :=
    (if keywordResult.score > 0 then [(WEIGHTS.keywords, (keywordResult.score : ℚ))] else [])
    ++ (if fileResult.score > 0 then [(WEIGHTS.files, (fileResult.score : ℚ))] else [])
    ++ (if contentResult.score > 0 then [(WEIGHTS.content, (contentResult.score : ℚ))] else [])
  if active.isEmpty then
    ⟨0, ⟨[], [], [], 0, 0, 0⟩⟩
  else
    let totalWeight := (active.map Prod.fst).sum
    let confidence := (active.map (fun p => p.2 * (p.1 / totalWeight))).sum
    ⟨jsRound confidence,
     ⟨keywordResult.«matches», fileResult.«matches», contentResult.«matches»,
      keywordResult.score, fileResult.score, contentResult.score⟩⟩

/-- The keyword sub-score feeding the combination step of
`calculateConfidence`. -/
def keywordScoreOf (prompt : String) (skill : DiscoveredSkill) : ℕ :=
  (calculateKeywordScore prompt skill.keywords).score

/-- The file sub-score feeding the combination step of
`calculateConfidence` (open files default to `[]`). -/
def fileScoreOf (mm : String → String → Bool) (skill : DiscoveredSkill)
    (context : Option MatchContext) : ℕ :=
  (calculateFileScore mm ((context.bind (fun c => c.openFiles)).getD [])
    skill.filePatterns).score

/-- The content sub-score feeding the combination step of
`calculateConfidence`. -/
def contentScoreOf (rx : String → String → Bool) (prompt : String)
    (skill : DiscoveredSkill) : ℕ :=
  (calculateContentScore rx prompt skill.name).score

/-- Modelled from the spec (§4.1 Combination): signals carry weights
0.4 / 0.3 / 0.3; a signal is active iff its sub-score is strictly
positive; with no active signal the confidence is 0; otherwise each
active weight is divided by the sum of active weights and the
confidence is the weighted sum of the active sub-scores with the
renormalized weights, rounded to the nearest integer (`Math.round`). -/
def specWeightedConfidence (ks fs cs : ℕ) : ℤ :=
  let signals : List (ℚ × ℚ) :=
    [(WEIGHTS.keywords, (ks : ℚ)), (WEIGHTS.files, (fs : ℚ)),
     (WEIGHTS.content, (cs : ℚ))]
  let active := signals.filter (fun p => 0 < p.2)
  if active.isEmpty then 0
  else
    let totalWeight := (active.map Prod.fst).sum
    jsRound ((active.map (fun p => (p.1 / totalWeight) * p.2)).sum)

/-! ## Security validator (`src/services/security.ts`) -/

/-- `SecurityError`: message, attempted path and machine-readable
reason code. -/
structure SecurityError where
  message : String
  attemptedPath : String
  reason : String
  deriving DecidableEq

/-- The `Result` discriminated union from `src/types/schemas.ts`:
`{ ok: true, value } | { ok: false, error }`. -/
inductive Result (T E : Type) where
  | ok (value : T)
  | error (e : E)
  deriving DecidableEq

/-- `node:path`'s `sep` on POSIX. -/
def sep : String := "/"

/-- The filesystem / `node:path` interface used by `validatePath`.
`realpath` models `realpathSync` (`none` models the call throwing);
`existsSync` models `existsSync`; `normalize` and `resolve` model the
`node:path` functions of one argument; `resolveParent dir` models
`resolve(dir, '..')`. -/
structure NodeFs where
  realpath : String → Option String
  existsSync : String → Bool
  normalize : String → String
  resolve : String → String
  resolveParent : String → String

/-- `validatePath` from `src/services/security.ts`, transcribed step by
step: (1) canonicalize the allowed dir, (2) normalize and resolve the
target, (3) prefix-check the unresolved path against the allowed dir,
(4) existence check, (5) resolve symlinks, (6) prefix-check the resolved
path against the project root (parent of the allowed dir), (7) reject a
normalized path still containing `..`. -/
def validatePath (fs : NodeFs) (targetPath allowedDir : String) :
    Result String SecurityError :=
  match fs.realpath allowedDir with
  | none =>
    .error ⟨s!"Allowed directory does not exist: {allowedDir}",
      allowedDir, "allowed_dir_not_found"⟩
  | some resolvedAllowedDir =>
    let normalizedPath := fs.normalize targetPath
    let absolutePath := fs.resolve normalizedPath
    let allowedPfx := if jsEndsWith resolvedAllowedDir sep
      then resolvedAllowedDir else resolvedAllowedDir ++ sep
    if !(jsStartsWith absolutePath allowedPfx) then
      .error ⟨"Access denied: Path is outside allowed directory (.claude/)",
        targetPath, "outside_allowed_directory"⟩
    else if !(fs.existsSync absolutePath) then
      .error ⟨s!"Path does not exist: {targetPath}",
        targetPath, "path_not_found"⟩
    else
      match fs.realpath absolutePath with
      | none =>
        .error ⟨s!"Cannot resolve path: {targetPath}",
          targetPath, "path_resolution_failed"⟩
      | some resolvedPath =>
        let projectRoot := fs.resolveParent resolvedAllowedDir
        let projectPfx := if jsEndsWith projectRoot sep
          then projectRoot else projectRoot ++ sep
        if !(jsStartsWith resolvedPath projectPfx) then
          .error ⟨"Access denied: Symlink points outside project directory",
            targetPath, "symlink_outside_project"⟩
        else if jsIncludes normalizedPath ".." then
          .error ⟨s!"Path traversal detected: {targetPath}",
            targetPath, "path_traversal_detected"⟩
        else
          .ok resolvedPath

/-- The closed set of reason codes `validatePath` itself can produce,
in step order. -/
def validateReasonCodes : List String :=
  ["allowed_dir_not_found", "outside_allowed_directory", "path_not_found",
   "path_resolution_failed", "symlink_outside_project",
   "path_traversal_detected"]

/-- `r` is a failure whose reason code belongs to `codes`. -/
def failsWithin (r : Result String SecurityError) (codes : List String) :
    Prop :=
  match r with
  | .ok _ => False
  | .error e => e.reason ∈ codes

instance (r : Result String SecurityError) (codes : List String) :
    Decidable (failsWithin r codes) := by
  unfold failsWithin
  cases r <;> infer_instance

/-! ## Helper lemmas -/

theorem jsRound_natCast (n : ℕ) : jsRound (n : ℚ) = (n : ℤ) := by
  rw [jsRound_eq_floor]
  refine Int.floor_eq_iff.mpr ⟨?_, ?_⟩
  · push_cast
    linarith
  · push_cast
    linarith

/-! ## Claims about the confidence scorer -/

theorem confidence_eq_specWeighted (mm rx : String → String → Bool)
    (prompt : String) (skill : DiscoveredSkill)
    (context : Option MatchContext) :
    (calculateConfidence mm rx prompt skill context).confidence
      = specWeightedConfidence (keywordScoreOf prompt skill)
          (fileScoreOf mm skill context) (contentScoreOf rx prompt skill) := by
  unfold calculateConfidence keywordScoreOf fileScoreOf contentScoreOf
    specWeightedConfidence
  rcases hk : calculateKeywordScore prompt skill.keywords with ⟨ks, kms⟩
  rcases hf : calculateFileScore mm
      ((context.bind (fun c => c.openFiles)).getD []) skill.filePatterns
    with ⟨fs, fms⟩
  rcases hc : calculateContentScore rx prompt skill.name with ⟨cs, cms⟩
  dsimp only
  by_cases hks : 0 < ks <;> by_cases hfs : 0 < fs <;> by_cases hcs : 0 < cs <;>
    simp [hks, hfs, hcs, WEIGHTS, Nat.cast_pos] <;>
    (congr 1; ring)

theorem confidence_allZero (mm rx : String → String → Bool)
    (prompt : String) (skill : DiscoveredSkill)
    (context : Option MatchContext)
    (hk : keywordScoreOf prompt skill = 0)
    (hf : fileScoreOf mm skill context = 0)
    (hc : contentScoreOf rx prompt skill = 0) :
    calculateConfidence mm rx prompt skill context
      = ⟨0, ⟨[], [], [], 0, 0, 0⟩⟩ := by
  unfold keywordScoreOf at hk
  unfold fileScoreOf at hf
  unfold contentScoreOf at hc
  unfold calculateConfidence
  simp [hk, hf, hc]

/-- C1: for every prompt, skill and context, `calculateConfidence`
returns confidence 0 with all-empty match details when all three
sub-scores are 0, and otherwise the weighted sum of the strictly
positive sub-scores with weights 0.4 (keyword), 0.3 (file),
0.3 (content) renormalized to sum to 1 (each active weight divided by
the sum of active weights), rounded to the nearest integer — i.e. it
agrees with the spec-side formula `specWeightedConfidence`. -/
theorem calculateConfidence_matches_spec (mm rx : String → String → Bool)
    (prompt : String) (skill : DiscoveredSkill)
    (context : Option MatchContext) :
    (calculateConfidence mm rx prompt skill context).confidence
      = specWeightedConfidence (keywordScoreOf prompt skill)
          (fileScoreOf mm skill context) (contentScoreOf rx prompt skill)
    ∧ (keywordScoreOf prompt skill = 0 ∧ fileScoreOf mm skill context = 0
        ∧ contentScoreOf rx prompt skill = 0 →
        calculateConfidence mm rx prompt skill context
          = ⟨0, ⟨[], [], [], 0, 0, 0⟩⟩) :=
  ⟨confidence_eq_specWeighted mm rx prompt skill context,
   fun hz => confidence_allZero mm rx prompt skill context hz.1 hz.2.1 hz.2.2⟩

/-- C2 counterexample: with the keyword list `["a", "a"]` (two equal
entries) and prompt `"a"`, only one distinct keyword matches, yet the
score is 75, not the 70 the claim's per-distinct-keyword formula
predicts: the code adds the +5 bonus per matched list entry, duplicates
included. -/
theorem keywordScore_distinct_counterexample :
    calculateKeywordScore "a" ["a", "a"] = ⟨75, ["a", "a"]⟩
    ∧ (["a", "a"].filter (fun k => jsIncludes (jsToLower "a") k)).dedup.length = 1
    ∧ (calculateKeywordScore "a" ["a", "a"]).score ≠ min 100 (70 + (1 - 1) * 5) :=
  ⟨by decide, by decide, by decide⟩

/-- C2 (amended): the matched-keyword list is exactly the sublist of
the keyword list (in catalog order) whose entries occur in the
lowercased prompt; the score is 0 iff there is no match, and with
`n + 1` matched entries (duplicates counted separately) it is
`min 100 (70 + 5·n)`. -/
theorem calculateKeywordScore_spec (prompt : String)
    (keywords : List String) :
    (calculateKeywordScore prompt keywords).«matches»
        = keywords.filter (fun keyword => jsIncludes (jsToLower prompt) keyword)
    ∧ ((calculateKeywordScore prompt keywords).«matches» = []
        ↔ (calculateKeywordScore prompt keywords).score = 0)
    ∧ (∀ n : ℕ,
        (calculateKeywordScore prompt keywords).«matches».length = n + 1 →
        (calculateKeywordScore prompt keywords).score = min 100 (70 + n * 5))
    ∧ ((calculateKeywordScore prompt keywords).«matches»).Sublist keywords := by
  unfold calculateKeywordScore
  dsimp only
  rw [pushLoop_eq_filter]
  by_cases hms : keywords.filter (fun keyword => jsIncludes (jsToLower prompt) keyword) = []
  · rw [hms]
    simp
  · rw [if_neg (by simpa using hms)]
    refine ⟨rfl, by simp [hms], ?_, List.filter_sublist _⟩
    intro n hn
    dsimp only at hn ⊢
    rw [hn]
    simp

/-- C5: for every minimatch oracle, open-file list and pattern list:
an empty pattern list or empty file list yields score 0 with no
matches; the matched files are exactly the open files (in input order)
matched by at least one pattern, each file counted once; the score is 0
with no matches and `min 100 (80 + 10·n)` for `n + 1` matched files. -/
theorem calculateFileScore_spec (mm : String → String → Bool)
    (openFiles filePatterns : List String) :
    ((filePatterns = [] ∨ openFiles = []) →
      calculateFileScore mm openFiles filePatterns = ⟨0, []⟩)
    ∧ (calculateFileScore mm openFiles filePatterns).«matches»
        = openFiles.filter
            (fun file => filePatterns.any (fun pattern => mm file pattern))
    ∧ ((calculateFileScore mm openFiles filePatterns).«matches» = []
        ↔ (calculateFileScore mm openFiles filePatterns).score = 0)
    ∧ (∀ n : ℕ,
        (calculateFileScore mm openFiles filePatterns).«matches».length = n + 1 →
        (calculateFileScore mm openFiles filePatterns).score
          = min 100 (80 + n * 10))
    ∧ ((calculateFileScore mm openFiles filePatterns).«matches»).Sublist
        openFiles := by
  unfold calculateFileScore
  by_cases hempty : (filePatterns.isEmpty || openFiles.isEmpty) = true
  · rw [if_pos hempty]
    simp only [Bool.or_eq_true, List.isEmpty_iff] at hempty
    refine ⟨fun _ => rfl, ?_, by simp, by simp, by simp⟩
    rcases hempty with h | h <;> subst h <;> simp
  · rw [if_neg hempty]
    dsimp only
    rw [pushLoop_eq_filter]
    simp only [Bool.or_eq_true, List.isEmpty_iff, not_or] at hempty
    by_cases hms : openFiles.filter
        (fun file => filePatterns.any (fun pattern => mm file pattern)) = []
    · rw [hms]
      refine ⟨fun _ => by simp, by simp [hms], by simp, by simp, by simp⟩
    · rw [if_neg (by simpa using hms)]
      refine ⟨?_, rfl, by simp [hms], ?_, List.filter_sublist _⟩
      · intro h
        rcases h with h | h
        · exact absurd h hempty.1
        · exact absurd h hempty.2
      · intro n hn
        dsimp only at hn ⊢
        rw [hn]
        simp

/-- C6: a skill whose name is not a key of the fixed
skill-to-semantic-category table gets content sub-score 0 with an empty
content-match list, for every regex oracle and prompt. -/
theorem contentScore_unknownSkill_zero (rx : String → String → Bool)
    (prompt skillName : String)
    (h : skillName ∉ ["convex-patterns", "security-patterns",
        "react-patterns", "typescript-patterns"]) :
    calculateContentScore rx prompt skillName = ⟨0, []⟩ := by
  simp only [List.mem_cons, List.not_mem_nil, or_false, not_or] at h
  obtain ⟨h1, h2, h3, h4⟩ := h
  unfold calculateContentScore skillPatternsTable
  simp [h1, h2, h3, h4, pushLoop]

theorem contentScore_unknownSkill_zero_witness :
    "tailwind-patterns" ∉ ["convex-patterns", "security-patterns",
        "react-patterns", "typescript-patterns"]
    ∧ calculateContentScore (fun _ _ => true) "create a webhook"
        "tailwind-patterns" = ⟨0, []⟩ :=
  ⟨by decide,
   contentScore_unknownSkill_zero (fun _ _ => true) "create a webhook"
     "tailwind-patterns" (by decide)⟩

/-- C7: whenever exactly one of the three signals has a strictly
positive sub-score, the overall confidence equals that signal's raw
sub-score (its weight renormalizes to 1). -/
theorem confidence_single_signal (mm rx : String → String → Bool)
    (prompt : String) (skill : DiscoveredSkill)
    (context : Option MatchContext) :
    (0 < keywordScoreOf prompt skill → fileScoreOf mm skill context = 0 →
      contentScoreOf rx prompt skill = 0 →
      (calculateConfidence mm rx prompt skill context).confidence
        = (keywordScoreOf prompt skill : ℤ))
    ∧ (keywordScoreOf prompt skill = 0 → 0 < fileScoreOf mm skill context →
        contentScoreOf rx prompt skill = 0 →
        (calculateConfidence mm rx prompt skill context).confidence
          = (fileScoreOf mm skill context : ℤ))
    ∧ (keywordScoreOf prompt skill = 0 → fileScoreOf mm skill context = 0 →
        0 < contentScoreOf rx prompt skill →
        (calculateConfidence mm rx prompt skill context).confidence
          = (contentScoreOf rx prompt skill : ℤ)) := by
  rw [confidence_eq_specWeighted]
  unfold specWeightedConfidence
  refine ⟨fun h1 h2 h3 => ?_, fun h1 h2 h3 => ?_, fun h1 h2 h3 => ?_⟩ <;>
    simp [h1, h2, h3, WEIGHTS, Nat.cast_pos] <;>
    exact jsRound_natCast _

theorem keywordScore_le_100 (prompt : String) (keywords : List String) :
    (calculateKeywordScore prompt keywords).score ≤ 100 := by
  unfold calculateKeywordScore
  dsimp only
  split
  · exact Nat.zero_le _
  · exact min_le_left _ _

theorem fileScore_le_100 (mm : String → String → Bool)
    (openFiles filePatterns : List String) :
    (calculateFileScore mm openFiles filePatterns).score ≤ 100 := by
  unfold calculateFileScore
  split
  · exact Nat.zero_le _
  · dsimp only
    split
    · exact Nat.zero_le _
    · exact min_le_left _ _

theorem contentScore_le_100 (rx : String → String → Bool)
    (prompt skillName : String) :
    (calculateContentScore rx prompt skillName).score ≤ 100 := by
  unfold calculateContentScore
  dsimp only
  split
  · exact Nat.zero_le _
  · exact min_le_left _ _

theorem weightedSum_bounds (l : List (ℚ × ℚ)) (hpos : ∀ p ∈ l, 0 < p.1)
    (hscore : ∀ p ∈ l, 0 ≤ p.2 ∧ p.2 ≤ 100) (hne : l ≠ []) :
    0 ≤ (l.map (fun p => p.2 * (p.1 / (l.map Prod.fst).sum))).sum
    ∧ (l.map (fun p => p.2 * (p.1 / (l.map Prod.fst).sum))).sum ≤ 100 := by
  set W := (l.map Prod.fst).sum with hW
  have hWpos : 0 < W := by
    rw [hW]
    apply List.sum_pos
    · intro x hx
      rcases List.mem_map.mp hx with ⟨p, hp, rfl⟩
      exact hpos p hp
    · simpa using hne
  have hrw : (l.map (fun p => p.2 * (p.1 / W))).sum
      = (l.map (fun p => p.2 * p.1)).sum / W := by
    simp only [div_eq_mul_inv, ← mul_assoc]
    rw [← List.sum_map_mul_right]
  constructor
  · rw [hrw]
    apply div_nonneg _ (le_of_lt hWpos)
    apply List.sum_nonneg
    intro x hx
    rcases List.mem_map.mp hx with ⟨p, hp, rfl⟩
    exact mul_nonneg (hscore p hp).1 (le_of_lt (hpos p hp))
  · rw [hrw, div_le_iff₀ hWpos]
    calc (l.map (fun p => p.2 * p.1)).sum
        ≤ (l.map (fun p => 100 * p.1)).sum := by
          apply List.sum_le_sum
          intro p hp
          exact mul_le_mul_of_nonneg_right (hscore p hp).2
            (le_of_lt (hpos p hp))
      _ = 100 * W := by rw [hW, List.sum_map_mul_left]

theorem jsRound_nonneg {x : ℚ} (hx : 0 ≤ x) : 0 ≤ jsRound x := by
  rw [jsRound_eq_floor]
  refine Int.le_floor.mpr ?_
  push_cast
  linarith

theorem jsRound_le_100 {x : ℚ} (hx : x ≤ 100) : jsRound x ≤ 100 := by
  rw [jsRound_eq_floor]
  have h1 : ⌊x + 1/2⌋ ≤ ⌊(100 : ℚ) + 1/2⌋ := Int.floor_le_floor (by linarith)
  have h2 : ⌊(100 : ℚ) + 1/2⌋ = 100 := by norm_num
  omega

/-- C8: for every oracle, prompt, skill and context, the confidence
returned by `calculateConfidence` is an integer in `[0, 100]`. -/
theorem confidence_in_range (mm rx : String → String → Bool)
    (prompt : String) (skill : DiscoveredSkill)
    (context : Option MatchContext) :
    0 ≤ (calculateConfidence mm rx prompt skill context).confidence
    ∧ (calculateConfidence mm rx prompt skill context).confidence ≤ 100 := by
  have hk100 := keywordScore_le_100 prompt skill.keywords
  have hf100 := fileScore_le_100 mm
    ((context.bind (fun c => c.openFiles)).getD []) skill.filePatterns
  have hc100 := contentScore_le_100 rx prompt skill.name
  unfold calculateConfidence
  rcases hk : calculateKeywordScore prompt skill.keywords with ⟨ks, kms⟩
  rcases hf : calculateFileScore mm
      ((context.bind (fun c => c.openFiles)).getD []) skill.filePatterns
    with ⟨fs, fms⟩
  rcases hc : calculateContentScore rx prompt skill.name with ⟨cs, cms⟩
  rw [hk] at hk100
  rw [hf] at hf100
  rw [hc] at hc100
  dsimp only at hk100 hf100 hc100 ⊢
  set A : List (ℚ × ℚ) :=
    (if ks > 0 then [(WEIGHTS.keywords, (ks : ℚ))] else [])
      ++ (if fs > 0 then [(WEIGHTS.files, (fs : ℚ))] else [])
      ++ (if cs > 0 then [(WEIGHTS.content, (cs : ℚ))] else []) with hA
  have hmem : ∀ p ∈ A, 0 < p.1 ∧ (0 ≤ p.2 ∧ p.2 ≤ 100) := by
    intro p hp
    rw [hA] at hp
    simp only [List.mem_append] at hp
    rcases hp with (hp | hp) | hp
    · split at hp
      · simp only [List.mem_singleton] at hp
        subst hp
        refine ⟨by norm_num [WEIGHTS], by simp, ?_⟩
        show (ks : ℚ) ≤ 100
        exact_mod_cast hk100
      · simp at hp
    · split at hp
      · simp only [List.mem_singleton] at hp
        subst hp
        refine ⟨by norm_num [WEIGHTS], by simp, ?_⟩
        show (fs : ℚ) ≤ 100
        exact_mod_cast hf100
      · simp at hp
    · split at hp
      · simp only [List.mem_singleton] at hp
        subst hp
        refine ⟨by norm_num [WEIGHTS], by simp, ?_⟩
        show (cs : ℚ) ≤ 100
        exact_mod_cast hc100
      · simp at hp
  by_cases hact : A.isEmpty = true
  · rw [if_pos hact]
    exact ⟨le_refl 0, by norm_num⟩
  · rw [if_neg hact]
    dsimp only
    have hne : A ≠ [] := by
      intro hnil
      rw [hnil] at hact
      exact hact rfl
    have hbounds := weightedSum_bounds A (fun p hp => (hmem p hp).1)
      (fun p hp => (hmem p hp).2) hne
    exact ⟨jsRound_nonneg hbounds.1, jsRound_le_100 hbounds.2⟩

theorem confidence_single_signal_witness :
    0 < keywordScoreOf "abc" ⟨"foo", "d", ["abc"], [], "p", "q"⟩
    ∧ fileScoreOf (fun _ _ => false) ⟨"foo", "d", ["abc"], [], "p", "q"⟩ none = 0
    ∧ contentScoreOf (fun _ _ => false) "abc"
        ⟨"foo", "d", ["abc"], [], "p", "q"⟩ = 0
    ∧ (calculateConfidence (fun _ _ => false) (fun _ _ => false) "abc"
        ⟨"foo", "d", ["abc"], [], "p", "q"⟩ none).confidence
      = (keywordScoreOf "abc" ⟨"foo", "d", ["abc"], [], "p", "q"⟩ : ℤ) :=
  ⟨by decide, by decide, by decide,
   (confidence_single_signal (fun _ _ => false) (fun _ _ => false) "abc"
      ⟨"foo", "d", ["abc"], [], "p", "q"⟩ none).1
     (by decide) (by decide) (by decide)⟩

/-! ## Claims about the security validator -/

/-- C3: whenever the normalized (pre-resolution) target path still
contains `..`, `validatePath` never succeeds: it fails with
`path_traversal_detected` or with a code triggered by an earlier
step. -/
theorem validatePath_traversal_rejected (fs : NodeFs)
    (targetPath allowedDir : String)
    (h : jsIncludes (fs.normalize targetPath) ".." = true) :
    failsWithin (validatePath fs targetPath allowedDir)
      validateReasonCodes := by
  unfold validatePath
  cases hA : fs.realpath allowedDir
  · simp [failsWithin, validateReasonCodes]
  · dsimp only
    repeat' split
    all_goals simp_all [failsWithin, validateReasonCodes]

/-- A filesystem model for the C3 witness: the allowed directory
`/repo/.claude` is canonical, the working directory is `/`, so the
relative target `../secret` resolves to `/secret`. -/
def fsC3 : NodeFs where
  realpath := fun p => if p = "/repo/.claude" then some "/repo/.claude" else none
  existsSync := fun _ => false
  normalize := fun p => p
  resolve := fun p => if p = "../secret" then "/secret" else p
  resolveParent := fun _ => "/repo"

theorem validatePath_traversal_rejected_witness :
    jsIncludes (fsC3.normalize "../secret") ".." = true
    ∧ failsWithin (validatePath fsC3 "../secret" "/repo/.claude")
        validateReasonCodes :=
  ⟨by decide,
   validatePath_traversal_rejected fsC3 "../secret" "/repo/.claude"
     (by decide)⟩

/-- C4: for a candidate whose unresolved absolute form lies inside the
allowed directory, which exists, resolves, and whose normalized form
contains no `..`: validation succeeds with the canonical resolved path
when the resolved path lies within the project root (the parent of the
canonical allowed directory), and fails with `symlink_outside_project`
when it does not. -/
theorem validatePath_symlink_boundary (fs : NodeFs)
    (targetPath allowedDir A R : String)
    (hA : fs.realpath allowedDir = some A)
    (hin : jsStartsWith (fs.resolve (fs.normalize targetPath))
        (if jsEndsWith A sep then A else A ++ sep) = true)
    (hex : fs.existsSync (fs.resolve (fs.normalize targetPath)) = true)
    (hR : fs.realpath (fs.resolve (fs.normalize targetPath)) = some R)
    (hno : jsIncludes (fs.normalize targetPath) ".." = false) :
    (jsStartsWith R (if jsEndsWith (fs.resolveParent A) sep
          then fs.resolveParent A else fs.resolveParent A ++ sep) = true →
      validatePath fs targetPath allowedDir = .ok R)
    ∧ (jsStartsWith R (if jsEndsWith (fs.resolveParent A) sep
          then fs.resolveParent A else fs.resolveParent A ++ sep) = false →
      validatePath fs targetPath allowedDir
        = .error ⟨"Access denied: Symlink points outside project directory",
            targetPath, "symlink_outside_project"⟩) := by
  constructor
  · intro hok
    unfold validatePath
    rw [hA]
    dsimp only
    simp [hin, hex, hR, hno, hok]
  · intro hbad
    unfold validatePath
    rw [hA]
    dsimp only
    simp [hin, hex, hR, hbad]

/-- A filesystem model for the C4 witness: inside `/repo/.claude`,
`link` is a symlink to `/repo/notes/real.md` (inside the project) and
`evil` is a symlink to `/tmp/outside` (outside the project). -/
def fs4 : NodeFs where
  realpath := fun p =>
    if p = "/repo/.claude" then some "/repo/.claude"
    else if p = "/repo/.claude/link" then some "/repo/notes/real.md"
    else if p = "/repo/.claude/evil" then some "/tmp/outside"
    else none
  existsSync := fun p => p = "/repo/.claude/link" || p = "/repo/.claude/evil"
  normalize := fun p => p
  resolve := fun p => p
  resolveParent := fun _ => "/repo"

theorem validatePath_symlink_boundary_witness :
    validatePath fs4 "/repo/.claude/link" "/repo/.claude"
        = .ok "/repo/notes/real.md"
    ∧ validatePath fs4 "/repo/.claude/evil" "/repo/.claude"
        = .error ⟨"Access denied: Symlink points outside project directory",
            "/repo/.claude/evil", "symlink_outside_project"⟩ :=
  ⟨(validatePath_symlink_boundary fs4 "/repo/.claude/link" "/repo/.claude"
      "/repo/.claude" "/repo/notes/real.md" (by decide) (by decide)
      (by decide) (by decide) (by decide)).1 (by decide),
   (validatePath_symlink_boundary fs4 "/repo/.claude/evil" "/repo/.claude"
      "/repo/.claude" "/tmp/outside" (by decide) (by decide)
      (by decide) (by decide) (by decide)).2 (by decide)⟩

theorem jsStartsWith_self_append_sep (A : String) :
    jsStartsWith A (A ++ sep) = false := by
  unfold jsStartsWith
  cases hb : (A ++ sep).data.isPrefixOf A.data
  · rfl
  · exfalso
    have hpre := List.isPrefixOf_iff_prefix.mp hb
    have hlen := hpre.length_le
    have hdata : (A ++ sep).data = A.data ++ sep.data := rfl
    rw [hdata, List.length_append] at hlen
    have hsep1 : sep.data.length = 1 := rfl
    omega

/-- C9 (amended): when the canonical allowed directory does not end
with the path separator (every directory except the filesystem root),
a target path that resolves to the canonical allowed directory itself
fails the prefix check with `outside_allowed_directory`: the allowed
root is not itself a valid target. -/
theorem validatePath_allowedRoot_rejected (fs : NodeFs)
    (targetPath allowedDir A : String)
    (hA : fs.realpath allowedDir = some A)
    (hsep : jsEndsWith A sep = false)
    (heq : fs.resolve (fs.normalize targetPath) = A) :
    validatePath fs targetPath allowedDir
      = .error ⟨"Access denied: Path is outside allowed directory (.claude/)",
          targetPath, "outside_allowed_directory"⟩ := by
  unfold validatePath
  rw [hA]
  dsimp only
  simp [hsep, heq, jsStartsWith_self_append_sep]

/-- The POSIX filesystem behavior at the root directory: `realpathSync`,
`existsSync`, `normalize`, `resolve` and `resolve(·, '..')` all map `/`
to `/`. -/
def fsRoot : NodeFs where
  realpath := fun p => if p = "/" then some "/" else none
  existsSync := fun p => p = "/"
  normalize := fun p => p
  resolve := fun p => p
  resolveParent := fun _ => "/"

/-- C9 counterexample: with allowed directory `/` (the one directory
whose canonical form ends with the separator) and target `/`, the
target resolves to the canonical allowed directory itself and yet
`validatePath` succeeds — so the claim that such a call always fails
with `outside_allowed_directory` is false as stated. -/
theorem validatePath_allowedRoot_counterexample :
    fsRoot.realpath "/" = some "/"
    ∧ fsRoot.resolve (fsRoot.normalize "/") = "/"
    ∧ validatePath fsRoot "/" "/" = .ok "/" :=
  ⟨by decide, by decide, by decide⟩

theorem validatePath_allowedRoot_rejected_witness :
    (∃ A, fs4.realpath "/repo/.claude" = some A
      ∧ jsEndsWith A sep = false
      ∧ fs4.resolve (fs4.normalize "/repo/.claude") = A)
    ∧ validatePath fs4 "/repo/.claude" "/repo/.claude"
        = .error ⟨"Access denied: Path is outside allowed directory (.claude/)",
            "/repo/.claude", "outside_allowed_directory"⟩ :=
  ⟨⟨"/repo/.claude", by decide, by decide, by decide⟩,
   validatePath_allowedRoot_rejected fs4 "/repo/.claude" "/repo/.claude"
     "/repo/.claude" (by decide) (by decide) (by decide)⟩

/-- C10: an existing path inside the allowed directory that resolves
within the project but whose normalized form contains the two-character
substring `..` anywhere — not only as a path segment — is rejected with
`path_traversal_detected`. -/
theorem validatePath_dotdot_substring_rejected (fs : NodeFs)
    (targetPath allowedDir A R : String)
    (hA : fs.realpath allowedDir = some A)
    (hin : jsStartsWith (fs.resolve (fs.normalize targetPath))
        (if jsEndsWith A sep then A else A ++ sep) = true)
    (hex : fs.existsSync (fs.resolve (fs.normalize targetPath)) = true)
    (hR : fs.realpath (fs.resolve (fs.normalize targetPath)) = some R)
    (hproj : jsStartsWith R (if jsEndsWith (fs.resolveParent A) sep
        then fs.resolveParent A else fs.resolveParent A ++ sep) = true)
    (hdots : jsIncludes (fs.normalize targetPath) ".." = true) :
    validatePath fs targetPath allowedDir
      = .error ⟨s!"Path traversal detected: {targetPath}",
          targetPath, "path_traversal_detected"⟩ := by
  unfold validatePath
  rw [hA]
  dsimp only
  simp [hin, hex, hR, hproj, hdots]

/-- A filesystem model for the C10 witness: `/repo/.claude/notes..md`
is an existing regular file inside the allowed directory; its name
contains `..` but involves no traversal, and `normalize` keeps it
unchanged since `..` is not a path segment there. -/
def fs10 : NodeFs where
  realpath := fun p =>
    if p = "/repo/.claude" then some "/repo/.claude"
    else if p = "/repo/.claude/notes..md" then some "/repo/.claude/notes..md"
    else none
  existsSync := fun p => p = "/repo/.claude/notes..md"
  normalize := fun p => p
  resolve := fun p => p
  resolveParent := fun _ => "/repo"

theorem validatePath_dotdot_substring_rejected_witness :
    jsIncludes (fs10.normalize "/repo/.claude/notes..md") ".." = true
    ∧ validatePath fs10 "/repo/.claude/notes..md" "/repo/.claude"
        = .error ⟨"Path traversal detected: /repo/.claude/notes..md",
            "/repo/.claude/notes..md", "path_traversal_detected"⟩ :=
  ⟨by decide,
   validatePath_dotdot_substring_rejected fs10 "/repo/.claude/notes..md"
     "/repo/.claude" "/repo/.claude" "/repo/.claude/notes..md"
     (by decide) (by decide) (by decide) (by decide) (by decide) (by decide)⟩

end RadClaude
